import Mathlib

/-
  Verification of the GitLens history-aggregation engine
  (src/GitLens/analytics.py and src/GitLens/api.py) against its
  natural-language specification.

  The Python fallback implementations are embedded shallowly: pure string
  processing and aggregation loops become Lean functions over lists;
  Python dicts (which preserve insertion order) become association lists
  updated in place; Python sets become lists with insert-if-absent;
  fallible code returns Except/Option.  External collaborators (the git
  subprocess, the local-timezone conversion of datetime.fromtimestamp)
  are modelled abstractly, as noted at each definition.
-/

namespace GitLens

/-! ## Generic string helpers -/

/-- Substring of `cs` strictly after the last occurrence of `c`
(the whole list when `c` does not occur).  Mirrors Python's
`s.split(c)[-1]` and the suffix taken by `os.path.splitext`/`dirname`. -/
def afterLast (c : Char) (cs : List Char) : List Char :=
  ((cs.reverse).takeWhile (fun x => x ≠ c)).reverse

/-- Python's substring containment test `needle in hay`. -/
def containsSub : List Char → List Char → Bool
  | [], needle => needle.isEmpty
  | c :: t, needle => List.isPrefixOf needle (c :: t) || containsSub t needle

/-- Python's `str.startswith`. -/
def strStartsWith (s p : String) : Bool :=
  List.isPrefixOf p.toList s.toList

/-- Python truthiness of `line.strip()`: true when the line is empty or
consists of whitespace only. -/
def isBlank (s : String) : Bool :=
  s.toList.all Char.isWhitespace

/-- The digits of a decimal numeral, or `none` if the list is empty or
holds a non-digit.  Helper for `pyInt?`. -/
def parseDigits : List Char → Option Nat
  | [] => none
  | cs =>
    if cs.all Char.isDigit then
      some (cs.foldl (fun n c => n * 10 + (c.toNat - 48)) 0)
    else none

/-- Python's `int(s)` on the strings this code feeds it: an optional
sign followed by decimal digits; anything else raises (here: `none`). -/
def pyInt? (s : String) : Option Int :=
  match s.toList with
  | '-' :: rest => (parseDigits rest).map (fun n => -(n : Int))
  | '+' :: rest => (parseDigits rest).map (fun n => (n : Int))
  | cs => (parseDigits cs).map (fun n => (n : Int))

/-- Zero-padded two-digit rendering, Python's `f"{n:02d}"` / `%m` / `%d`. -/
def pad2 (n : Nat) : String :=
  if n < 10 then "0" ++ toString n else toString n

/-- Zero-padded four-digit rendering, Python's `%Y`. -/
def pad4 (n : Nat) : String :=
  if n < 10 then "000" ++ toString n
  else if n < 100 then "00" ++ toString n
  else if n < 1000 then "0" ++ toString n
  else toString n

/-! ## Calendar model

`datetime.datetime.fromtimestamp` converts a unix timestamp to a local
calendar date; the conversion itself is environment (timezone) dependent
and is treated as an external input.  The calendar arithmetic below
models the proleptic Gregorian calendar exactly as Python's `datetime`
library defines it (`date.toordinal`, `date.isocalendar`). -/

/-- A local calendar date with an hour, the part of a Python `datetime`
value that `Analytics._format_time_period` reads. -/
structure DateTime where
  year : Nat
  month : Nat
  day : Nat
  hour : Nat
deriving DecidableEq, Repr

/-- Gregorian leap-year rule. -/
def isLeap (y : Nat) : Bool :=
  (y % 4 == 0 && y % 100 != 0) || y % 400 == 0

/-- Days in the months strictly before month `m` of year `y`. -/
def daysBeforeMonth (y m : Nat) : Nat :=
  [0, 31, 59, 90, 120, 151, 181, 212, 243, 273, 304, 334].getD (m - 1) 0
    + (if 2 < m && isLeap y then 1 else 0)

/-- One-based ordinal of a date within its year (Jan 1 is 1). -/
def ordinalInYear (y m d : Nat) : Nat :=
  daysBeforeMonth y m + d

/-- Days in all years strictly before year `y` (year 1 is the first). -/
def daysBeforeYear (y : Nat) : Nat :=
  365 * (y - 1) + (y - 1) / 4 - (y - 1) / 100 + (y - 1) / 400

/-- Python's `date.toordinal`: day count with 0001-01-01 as day 1. -/
def toOrdinal (y m d : Nat) : Nat :=
  daysBeforeYear y + ordinalInYear y m d

/-- ISO weekday, Monday = 1 .. Sunday = 7 (0001-01-01 is a Monday). -/
def isoWeekdayOf (y m d : Nat) : Nat :=
  (toOrdinal y m d - 1) % 7 + 1

/-- Number of ISO weeks in the ISO year `y` (52 or 53). -/
def isoWeeksIn (y : Nat) : Nat :=
  let jan1 := isoWeekdayOf y 1 1
  if jan1 == 4 || (isLeap y && jan1 == 3) then 53 else 52

/-- Python's `date.isocalendar()` restricted to its first two components:
the ISO week-numbering year and the ISO week number. -/
def isocalendar (y m d : Nat) : Nat × Nat :=
  let ord := ordinalInYear y m d
  let wd := isoWeekdayOf y m d
  let w := (ord + 10 - wd) / 7
  if w = 0 then (y - 1, isoWeeksIn (y - 1))
  else if isoWeeksIn y < w then (y + 1, 1)
  else (y, w)

/-! ## Timeline aggregator (`Analytics._format_time_period` and
`Analytics.analyze_commit_history_timeline`, analytics.py lines 76-168,
api.py lines 600-660; the two copies are line-for-line identical) -/

/-- The `TimePeriod` enum of analytics.py (hour/day/week/month/year). -/
inductive TimePeriod where
  | hour | day | week | month | year
deriving DecidableEq, Repr

/-- `Analytics._format_time_period`: renders the bucket key for one
commit date.  The week branch is Python's
`f"{dt.year}-W{dt.isocalendar()[1]:02d}"`: the *calendar* year `dt.year`
paired with the *ISO* week number. -/
def format_time_period (dt : DateTime) (period : TimePeriod) : String :=
  match period with
  | .hour => pad4 dt.year ++ "-" ++ pad2 dt.month ++ "-" ++ pad2 dt.day
      ++ " " ++ pad2 dt.hour ++ ":00"
  | .day => pad4 dt.year ++ "-" ++ pad2 dt.month ++ "-" ++ pad2 dt.day
  | .week => toString dt.year ++ "-W" ++ pad2 (isocalendar dt.year dt.month dt.day).2
  | .month => pad4 dt.year ++ "-" ++ pad2 dt.month
  | .year => pad4 dt.year

/-- Claim C1: the spec says the week bucket key for a timestamp landing on
2021-01-01 is the ISO-8601 key "2020-W53" (ISO week-numbering year).  The
code computes the ISO week number correctly (isocalendar gives week 53 of
ISO year 2020) but pairs it with the calendar year `dt.year`, producing
"2021-W53" — neither "2020-W53" nor "2021-W01". -/
theorem c1_week_key_mixes_calendar_year_with_iso_week :
    format_time_period ⟨2021, 1, 1, 0⟩ TimePeriod.week = "2021-W53" ∧
    isocalendar 2021 1 1 = (2020, 53) ∧
    format_time_period ⟨2021, 1, 1, 0⟩ TimePeriod.week ≠ "2020-W53" := by
  refine ⟨by decide, by decide, by decide⟩

/-! ## The analysis entry point for timelines -/

/-- The `AnalyticsOptions` dataclass (analytics.py lines 25-34): the
query-window value object.  No field is validated anywhere. -/
structure AnalyticsOptions where
  max_commits : Option Nat := none
  skip_commits : Option Nat := none
  include_merges : Bool := true
  author_filter : Option String := none
  path_filter : Option String := none
  since_date : Option Int := none
  until_date : Option Int := none
deriving DecidableEq, Repr

/-- A commit as seen by the history source: the attributes the modelled
git query filters on. -/
structure Commit where
  timestamp : Int
  author : String
  is_merge : Bool := false
  paths : List String := []
deriving DecidableEq, Repr

/-- Modelled from the spec: the external `HistorySource.commits()` query
(the `git log --pretty=format:%at` subprocess call built in
`analyze_commit_history_timeline`).  It returns the timestamps of the
commits honoring all window filters: `--no-merges`, `--author`
(approximated as substring match), `--since`/`--until` (inclusive
bounds), `--skip`, `--max-count`, and the path filter.  An option is
applied exactly when the corresponding Python `if options.x:` test is
truthy (so a value of 0 or an empty string adds no git argument). -/
def gitLogTimestamps (commits : List Commit) (o : AnalyticsOptions) : List Int :=
  let l := commits.filter (fun c =>
    (o.include_merges || !c.is_merge)
    && (match o.author_filter with
        | some a => a == "" || containsSub c.author.toList a.toList
        | none => true)
    && (match o.since_date with
        | some s => s == 0 || s ≤ c.timestamp
        | none => true)
    && (match o.until_date with
        | some u => u == 0 || c.timestamp ≤ u
        | none => true)
    && (match o.path_filter with
        | some p => p == "" || c.paths.contains p
        | none => true))
  let l := match o.skip_commits with
    | some k => if k == 0 then l else l.drop k
    | none => l
  let l := match o.max_commits with
    | some m => if m == 0 then l else l.take m
    | none => l
  l.map (fun c => c.timestamp)

/-- One step of the bucketing loop of `analyze_commit_history_timeline`
(analytics.py lines 140-146): `if key not in timeline: timeline[key] = 0;
timeline[key] += 1`, on an insertion-ordered association list. -/
def bumpKey : List (String × Nat) → String → List (String × Nat)
  | [], k => [(k, 1)]
  | p :: t, k => if p.1 = k then (p.1, p.2 + 1) :: t else p :: bumpKey t k

/-- The bucketing loop: fold `bumpKey` over the rendered keys. -/
def bucketCounts (keys : List String) : List (String × Nat) :=
  keys.foldl bumpKey []

/-- `Analytics.analyze_commit_history_timeline` (fallback path,
analytics.py lines 113-148).  `tz` is the environment-dependent
`datetime.fromtimestamp` local-time conversion, passed abstractly.  The
function performs no validation of the options; the only exception the
Python body could raise is the unknown-period `ValueError` in
`_format_time_period`, which is unreachable for the five `TimePeriod`
members, so every run returns `.ok`. -/
def analyze_commit_history_timeline (tz : Int → DateTime) (commits : List Commit)
    (period : TimePeriod) (o : AnalyticsOptions) :
    Except String (List (String × Nat)) :=
  .ok (bucketCounts ((gitLogTimestamps commits o).map
    (fun t => format_time_period (tz t) period)))

/-! Lemmas about the bucketing loop. -/

theorem sum_bumpKey (m : List (String × Nat)) (k : String) :
    ((bumpKey m k).map Prod.snd).sum = (m.map Prod.snd).sum + 1 := by
  induction m with
  | nil => simp [bumpKey]
  | cons p t ih =>
    by_cases h : p.1 = k <;> simp [bumpKey, h, ih] <;> omega

theorem mem_bumpKey (m : List (String × Nat)) (k : String) (kc : String × Nat)
    (h : kc ∈ bumpKey m k) : kc ∈ m ∨ (kc.1 = k ∧ 1 ≤ kc.2) := by
  induction m with
  | nil =>
    simp [bumpKey] at h
    right
    simp [h]
  | cons p t ih =>
    by_cases hpk : p.1 = k
    · simp only [bumpKey, if_pos hpk] at h
      rcases List.mem_cons.1 h with h1 | h2
      · right
        subst h1
        exact ⟨hpk, by omega⟩
      · exact .inl (List.mem_cons_of_mem _ h2)
    · simp only [bumpKey, if_neg hpk] at h
      rcases List.mem_cons.1 h with h1 | h2
      · exact .inl (h1 ▸ List.mem_cons_self _ _)
      · rcases ih h2 with h3 | h3
        · exact .inl (List.mem_cons_of_mem _ h3)
        · exact .inr h3

theorem sum_bucketCounts_aux (keys : List String) (m : List (String × Nat)) :
    ((keys.foldl bumpKey m).map Prod.snd).sum
      = (m.map Prod.snd).sum + keys.length := by
  induction keys generalizing m with
  | nil => simp
  | cons k t ih =>
    simp only [List.foldl_cons, ih, sum_bumpKey, List.length_cons]
    omega

theorem mem_bucketCounts_aux (keys : List String) (m : List (String × Nat))
    (kc : String × Nat) (h : kc ∈ keys.foldl bumpKey m) :
    kc ∈ m ∨ (kc.1 ∈ keys ∧ 1 ≤ kc.2) := by
  induction keys generalizing m with
  | nil => exact .inl h
  | cons k t ih =>
    simp only [List.foldl_cons] at h
    rcases ih (bumpKey m k) h with h1 | h1
    · rcases mem_bumpKey m k kc h1 with h2 | h2
      · exact .inl h2
      · exact .inr ⟨h2.1 ▸ List.mem_cons_self _ _, h2.2⟩
    · exact .inr ⟨List.mem_cons_of_mem _ h1.1, h1.2⟩

/-- Claim C5: for every period and input, the timeline's bucket counts sum
to the number of commits in the window, every present bucket has count at
least 1, and every present key is the rendered period of some commit in
the window (sparse map: no foreign or zero-count buckets). -/
theorem c5_timeline_sum_positive_sparse (tz : Int → DateTime)
    (commits : List Commit) (period : TimePeriod) (o : AnalyticsOptions)
    (tl : List (String × Nat))
    (h : analyze_commit_history_timeline tz commits period o = .ok tl) :
    ((tl.map Prod.snd).sum = (gitLogTimestamps commits o).length
      ∧ ∀ kc ∈ tl, 1 ≤ kc.2
        ∧ ∃ t ∈ gitLogTimestamps commits o,
            format_time_period (tz t) period = kc.1) := by
  have htl : tl = bucketCounts ((gitLogTimestamps commits o).map
      (fun t => format_time_period (tz t) period)) := by
    simpa [analyze_commit_history_timeline] using h.symm
  subst htl
  refine ⟨?_, ?_⟩
  · rw [bucketCounts, sum_bucketCounts_aux]
    simp
  · intro kc hkc
    rcases mem_bucketCounts_aux _ [] kc hkc with h1 | h1
    · simp at h1
    · refine ⟨h1.2, ?_⟩
      rcases List.mem_map.1 h1.1 with ⟨t, ht, hfmt⟩
      exact ⟨t, ht, hfmt⟩

/-- Witness for C5 at a concrete input: two commits on 2021-03-05 and one
on 2021-03-06, bucketed by day. -/
theorem c5_timeline_sum_positive_sparse_witness :
    (([("2021-03-05", 2), ("2021-03-06", 1)] : List (String × Nat)).map
        Prod.snd).sum = 3
      ∧ 1 ≤ 2
      ∧ ∃ t ∈ gitLogTimestamps
          [⟨10, "alice", false, []⟩, ⟨20, "alice", false, []⟩,
           ⟨30, "bob", false, []⟩] {},
          format_time_period
            ((fun t => if t ≤ 25 then (⟨2021, 3, 5, 0⟩ : DateTime)
              else ⟨2021, 3, 6, 0⟩) t) TimePeriod.day = "2021-03-05" := by
  have h := c5_timeline_sum_positive_sparse
    (fun t => if t ≤ 25 then (⟨2021, 3, 5, 0⟩ : DateTime) else ⟨2021, 3, 6, 0⟩)
    [⟨10, "alice", false, []⟩, ⟨20, "alice", false, []⟩, ⟨30, "bob", false, []⟩]
    TimePeriod.day {} _ rfl
  have h2 := h.2 ("2021-03-05", 2) (by decide)
  exact ⟨by decide, h2.1, h2.2⟩

/-- Claim C2 counterexample: with a malformed window (`since = 100 >
until = 50`) over a nonempty repository, the timeline entry point does
not reject with a configuration error: it returns the normal value
`.ok []`, indistinguishable from "no commits". -/
theorem c2_counterexample_no_rejection :
    analyze_commit_history_timeline (fun _ => ⟨2021, 1, 1, 0⟩)
      [⟨70, "alice", false, []⟩] TimePeriod.day
      { since_date := some 100, until_date := some 50 }
      = .ok [] := by rfl

/-- Claim C2 amended: no entry point validates the window bounds.  A
window with nonzero `since > until` is passed through to the history
query, whose conjunctive time filter matches no commit, and the call
returns a normal empty timeline rather than an error. -/
theorem c2_amended_malformed_window_yields_ok_empty (tz : Int → DateTime)
    (commits : List Commit) (period : TimePeriod) (o : AnalyticsOptions)
    (s u : Int) (hs : o.since_date = some s) (hu : o.until_date = some u)
    (hlt : u < s) (hs0 : s ≠ 0) (hu0 : u ≠ 0) :
    analyze_commit_history_timeline tz commits period o = .ok [] := by
  have hfilter : gitLogTimestamps commits o = [] := by
    unfold gitLogTimestamps
    have : commits.filter (fun c =>
        (o.include_merges || !c.is_merge)
        && (match o.author_filter with
            | some a => a == "" || containsSub c.author.toList a.toList
            | none => true)
        && (match o.since_date with
            | some s => s == 0 || s ≤ c.timestamp
            | none => true)
        && (match o.until_date with
            | some u => u == 0 || c.timestamp ≤ u
            | none => true)
        && (match o.path_filter with
            | some p => p == "" || c.paths.contains p
            | none => true)) = [] := by
      rw [List.filter_eq_nil_iff]
      intro c _
      simp only [hs, hu, Bool.and_eq_true, Bool.or_eq_true, beq_iff_eq,
        decide_eq_true_eq, not_and]
      intro hall _
      rcases hall with ⟨⟨_, hsince⟩, huntil⟩
      rcases hsince with h1 | h1
      · exact absurd h1 hs0
      · rcases huntil with h2 | h2
        · exact absurd h2 hu0
        · omega
    rw [this]
    cases o.skip_commits <;> cases o.max_commits <;> simp
  simp [analyze_commit_history_timeline, hfilter, bucketCounts]

/-- Witness for the amended C2 at a concrete malformed window. -/
theorem c2_amended_malformed_window_yields_ok_empty_witness :
    analyze_commit_history_timeline (fun _ => ⟨2021, 1, 1, 0⟩)
      [⟨70, "alice", false, []⟩, ⟨80, "bob", true, []⟩] TimePeriod.week
      { since_date := some 100, until_date := some 50 } = .ok [] :=
  c2_amended_malformed_window_yields_ok_empty _ _ _ _ 100 50 rfl rfl
    (by decide) (by decide) (by decide)

/-! ## Evolution tracker (`Analytics.analyze_file_evolution`,
analytics.py lines 170-284, api.py lines 662-744; the two copies differ
only in returning a dataclass vs a dict) -/

/-- The `FileEvolutionEntry` dataclass (analytics.py lines 37-46). -/
structure FileEvolutionEntry where
  commit_hash : String
  author : String
  email : String
  timestamp : Int
  message : String
  lines_added : Nat
  lines_removed : Nat
deriving DecidableEq, Repr

/-- Parser state of the evolution loop (analytics.py lines 218-225):
the `current_*` variables, the diff buffer and the `parsing_diff` flag. -/
structure EvoState where
  commit : Option String := none
  author : Option String := none
  email : Option String := none
  timestamp : Option Int := none
  message : Option String := none
  diff : List String := []
  parsingDiff : Bool := false
deriving DecidableEq, Repr

/-- `sum(1 for l in current_diff if l.startswith('+') and not
l.startswith('+++'))` (analytics.py line 242). -/
def countAdded (diff : List String) : Nat :=
  (diff.filter (fun l => strStartsWith l "+" && !strStartsWith l "+++")).length

/-- The `-`/`---` counterpart (analytics.py line 243). -/
def countRemoved (diff : List String) : Nat :=
  (diff.filter (fun l => strStartsWith l "-" && !strStartsWith l "---")).length

/-- Builds the emitted entry from the current parser state
(analytics.py lines 245-253). -/
def mkEvoEntry (st : EvoState) : FileEvolutionEntry :=
  { commit_hash := st.commit.getD ""
    author := st.author.getD ""
    email := st.email.getD ""
    timestamp := st.timestamp.getD 0
    message := st.message.getD ""
    lines_added := countAdded st.diff
    lines_removed := countRemoved st.diff }

/-- One iteration of the parsing loop (analytics.py lines 227-267).  The
`int(line)` call raises `ValueError` on a non-numeric line, modelled as
`.error line`. -/
def evoStep (acc : List FileEvolutionEntry × EvoState) (line : String) :
    Except String (List FileEvolutionEntry × EvoState) :=
  let (out, st) := acc
  if st.commit.isNone then .ok (out, { st with commit := some line })
  else if st.author.isNone then .ok (out, { st with author := some line })
  else if st.email.isNone then .ok (out, { st with email := some line })
  else if st.timestamp.isNone then
    match pyInt? line with
    | some n => .ok (out, { st with timestamp := some n })
    | none => .error line
  else if st.message.isNone then
    .ok (out, { st with message := some line, parsingDiff := true })
  else if st.parsingDiff then
    if strStartsWith line "diff --git " && !st.diff.isEmpty then
      .ok (out ++ [mkEvoEntry st],
        { commit := some line, author := none, email := none,
          timestamp := none, message := none, diff := [line],
          parsingDiff := false })
    else .ok (out, { st with diff := st.diff ++ [line] })
  else .ok (out, st)

/-- `Analytics.analyze_file_evolution` (fallback path, analytics.py lines
207-284), taking the already-split output lines of the external
`git log --follow --patch --pretty=format:%H%n%an%n%ae%n%at%n%s` call.
After the loop, the trailing block is flushed only when both a commit
hash and a nonempty diff buffer are present (line 270). -/
def analyze_file_evolution (lines : List String) :
    Except String (List FileEvolutionEntry) := do
  let (out, st) ← lines.foldlM evoStep ([], {})
  if st.commit.isSome && !st.diff.isEmpty then
    .ok (out ++ [mkEvoEntry st])
  else
    .ok out

/-- Claim C3: the spec requires exactly N entries for N follow-commits,
in particular an entry for a commit block with zero diff content.  The
code violates both parts: (1) a single follow-commit whose block carries
no diff lines is dropped by the `and current_diff` guard of the final
flush, yielding 0 entries; (2) for two follow-commits with ordinary
patches, the block-boundary handler installs the `diff --git` line as the
next commit hash, so the second block's `+++ b/...` header reaches
`int(...)` and the whole call raises ValueError instead of returning two
entries. -/
theorem c3_evolution_drops_empty_block_and_crashes_on_second :
    analyze_file_evolution
      ["h1", "alice", "alice@example.com", "1700000000", "add file"]
      = .ok []
    ∧ analyze_file_evolution
      ["h1", "alice", "alice@example.com", "1000", "m1",
       "diff --git a/a.txt b/a.txt", "index 0000000..1111111",
       "--- /dev/null", "+++ b/a.txt", "@@ -0,0 +1 @@", "+hello",
       "h2", "bob", "bob@example.com", "900", "m2",
       "diff --git a/a.txt b/a.txt", "index 1111111..2222222",
       "--- a/a.txt", "+++ b/a.txt", "@@ -1 +1,2 @@", "+world"]
      = .error "+++ b/a.txt" := by
  constructor <;> rfl

/-! ## Churn aggregator (`Analytics.analyze_code_churn`,
analytics.py lines 286-376) -/

/-- The per-path churn metrics dict.  The raw pass (lines 344-363) fills
`change_count` and `commits`; the merge pass (lines 365-376) may add
`last_modified`, `authors` and `primary_owner`, modelled as `Option`
fields that are `none` until the corresponding dict key is added. -/
structure ChurnVal where
  change_count : Nat := 0
  commits : List String := []
  last_modified : Option Int := none
  authors : Option (List String) := none
  primary_owner : Option (Option String) := none
deriving DecidableEq, Repr

/-- Python `set.add` on a set modelled as a duplicate-free list. -/
def addToSet (s : List String) (x : String) : List String :=
  if s.contains x then s else s ++ [x]

/-- In-place update of the value at key `k` of an insertion-ordered dict. -/
def updateKey (m : List (String × ChurnVal)) (k : String)
    (f : ChurnVal → ChurnVal) : List (String × ChurnVal) :=
  match m with
  | [] => []
  | p :: t => if p.1 = k then (p.1, f p.2) :: t else p :: updateKey t k f

/-- `if line not in churn: churn[line] = {...}` (analytics.py lines
355-359). -/
def getOrInit (m : List (String × ChurnVal)) (k : String) :
    List (String × ChurnVal) :=
  if (m.lookup k).isSome then m else m ++ [(k, ⟨0, [], none, none, none⟩)]

/-- One iteration of the raw churn loop (analytics.py lines 347-363).
Note that `current_commit` is assigned by the first nonblank line and is
never reset afterwards, so every later nonblank line — including the
hash lines of subsequent commits — is handled by the file-path branch. -/
def churnStep (acc : Option String × List (String × ChurnVal))
    (line : String) : Option String × List (String × ChurnVal) :=
  let (cur, churn) := acc
  if isBlank line then acc
  else
    match cur with
    | none => (some line, churn)
    | some c =>
      (some c, updateKey (getOrInit churn line) line (fun v =>
        { v with change_count := v.change_count + 1,
                 commits := addToSet v.commits c }))

/-- The raw pass of `analyze_code_churn` over the split output of the
external `git log --name-only --pretty=format:%H` call. -/
def rawChurn (lines : List String) : List (String × ChurnVal) :=
  (lines.foldl churnStep (none, [])).2

/-- The `FileChangeFrequency` dataclass (api.py lines 85-92). -/
structure FileChangeFrequency where
  path : String
  change_count : Nat
  last_modified : Int
  authors : List String
  primary_owner : Option String := none
deriving DecidableEq, Repr

/-- One iteration of the frequency-metadata merge pass (analytics.py
lines 368-374): `if entry.path in churn: churn[entry.path].update(...)`. -/
def churnMergeStep (churn : List (String × ChurnVal))
    (e : FileChangeFrequency) : List (String × ChurnVal) :=
  if (churn.lookup e.path).isSome then
    updateKey churn e.path (fun v =>
      { v with last_modified := some e.last_modified,
               authors := some e.authors,
               primary_owner := some e.primary_owner })
  else churn

/-- `Analytics.analyze_code_churn` (fallback path, analytics.py lines
321-376): the raw pass over the log stream followed by the merge of the
`repo.analyze_change_frequency()` result, which is passed in here since
it comes from a separate external query. -/
def analyze_code_churn (lines : List String)
    (frequency_data : List FileChangeFrequency) :
    List (String × ChurnVal) :=
  frequency_data.foldl churnMergeStep (rawChurn lines)

/-- Rendering of the external `git log --name-only --pretty=format:%H`
output for a stream of (commit, touched-file-paths) events: the commit
hash, a blank separator, the touched paths, and a trailing blank line. -/
def renderNameOnly (events : List (String × List String)) : List String :=
  (events.map (fun e => e.1 :: "" :: e.2 ++ [""])).flatten

/-- The number of distinct commits of an event stream that touch `p`
(each commit appears once in the stream, so this is the distinct count
the claim speaks about). -/
def commitsTouching (events : List (String × List String)) (p : String) :
    Nat :=
  (events.filter (fun e => e.2.contains p)).length

/-- Claim C6: the churn mapping of a two-commit stream (h1 touches a.txt,
then h2 touches a.txt) records a churn entry for the literal string "h2"
with change_count 1 even though no commit touches a path "h2" — the raw
loop never resets `current_commit`, so the second hash line is consumed as
a file path — and attributes every touch of a.txt to commit h1. -/
theorem c6_churn_counts_commit_hash_as_path :
    ((rawChurn (renderNameOnly [("h1", ["a.txt"]), ("h2", ["a.txt"])])).lookup
        "h2").map (fun v => v.change_count) = some 1
    ∧ commitsTouching [("h1", ["a.txt"]), ("h2", ["a.txt"])] "h2" = 0
    ∧ ((rawChurn (renderNameOnly
        [("h1", ["a.txt"]), ("h2", ["a.txt"])])).lookup "a.txt").map
        (fun v => (v.change_count, v.commits)) = some (2, ["h1"]) := by
  refine ⟨by rfl, by rfl, by rfl⟩

/-! Lemmas for the churn merge pass (claim C10). -/

theorem updateKey_map_fst (m : List (String × ChurnVal)) (k : String)
    (f : ChurnVal → ChurnVal) :
    (updateKey m k f).map Prod.fst = m.map Prod.fst := by
  induction m with
  | nil => rfl
  | cons p t ih =>
    by_cases h : p.1 = k <;> simp [updateKey, h, ih]

theorem churnMergeStep_map_fst (m : List (String × ChurnVal))
    (e : FileChangeFrequency) :
    (churnMergeStep m e).map Prod.fst = m.map Prod.fst := by
  unfold churnMergeStep
  split
  · exact updateKey_map_fst m e.path _
  · rfl

theorem foldl_churnMergeStep_map_fst (freq : List FileChangeFrequency)
    (m : List (String × ChurnVal)) :
    ((freq.foldl churnMergeStep m).map Prod.fst) = m.map Prod.fst := by
  induction freq generalizing m with
  | nil => rfl
  | cons e t ih => rw [List.foldl_cons, ih, churnMergeStep_map_fst]

theorem lookup_updateKey (m : List (String × ChurnVal)) (k : String)
    (f : ChurnVal → ChurnVal) (p : String) :
    (updateKey m k f).lookup p
      = if p = k then (m.lookup p).map f else m.lookup p := by
  induction m with
  | nil => simp [updateKey]
  | cons q t ih =>
    by_cases hq : q.1 = k
    · subst hq
      by_cases hp : p = q.1
      · simp [updateKey, List.lookup, hp]
      · simp [updateKey, List.lookup, hp, beq_false_of_ne hp]
    · by_cases hp : p = q.1
      · subst hp
        simp [updateKey, List.lookup, if_neg hq, if_neg (by exact hq)]
      · simp [updateKey, List.lookup, if_neg hq, beq_false_of_ne hp, ih]

theorem lookup_churnMergeStep_frame (m : List (String × ChurnVal))
    (e : FileChangeFrequency) (p : String) :
    ((churnMergeStep m e).lookup p).map (fun v => (v.change_count, v.commits))
      = (m.lookup p).map (fun v => (v.change_count, v.commits)) := by
  unfold churnMergeStep
  split
  · rw [lookup_updateKey]
    split
    · cases m.lookup p <;> rfl
    · rfl
  · rfl

theorem foldl_churnMergeStep_frame (freq : List FileChangeFrequency)
    (m : List (String × ChurnVal)) (p : String) :
    (((freq.foldl churnMergeStep m).lookup p).map
        (fun v => (v.change_count, v.commits)))
      = ((m.lookup p).map (fun v => (v.change_count, v.commits))) := by
  induction freq generalizing m with
  | nil => rfl
  | cons e t ih => rw [List.foldl_cons, ih, lookup_churnMergeStep_frame]

/-- First-occurrence deduplication, the key order a Python dict built by
insert-if-absent ends up with. -/
def dedupFirst (ps : List String) : List String :=
  ps.foldl (fun ks p => if ks.contains p then ks else ks ++ [p]) []

/-- The lines of the raw log stream that the raw churn pass consumes as
file lines: every nonblank line after the first nonblank line. -/
def fileLines (lines : List String) : List String :=
  ((lines.filter (fun l => !isBlank l)).drop 1)

theorem lookup_isSome_iff_contains (m : List (String × ChurnVal))
    (k : String) :
    (m.lookup k).isSome = (m.map Prod.fst).contains k := by
  induction m with
  | nil => rfl
  | cons p t ih =>
    by_cases h : k = p.1
    · simp [List.lookup, h]
    · simp [List.lookup, beq_false_of_ne h, ih,
        Ne.symm h]

theorem getOrInit_map_fst (m : List (String × ChurnVal)) (k : String) :
    (getOrInit m k).map Prod.fst
      = (if (m.map Prod.fst).contains k then m.map Prod.fst
         else m.map Prod.fst ++ [k]) := by
  unfold getOrInit
  rw [lookup_isSome_iff_contains]
  split <;> simp_all

theorem churn_keys_aux (paths : List String) (c : String)
    (m : List (String × ChurnVal)) :
    (((paths.foldl churnStep (some c, m)).2).map Prod.fst)
      = (paths.filter (fun l => !isBlank l)).foldl
          (fun ks p => if ks.contains p then ks else ks ++ [p])
          (m.map Prod.fst) := by
  induction paths generalizing m with
  | nil => rfl
  | cons line t ih =>
    by_cases hb : isBlank line
    · simp only [List.foldl_cons, List.filter_cons, hb]
      simpa [churnStep, hb] using ih m
    · simp only [List.foldl_cons, List.filter_cons, hb]
      have hstep : churnStep (some c, m) line
          = (some c, updateKey (getOrInit m line) line (fun v =>
              { v with change_count := v.change_count + 1,
                       commits := addToSet v.commits c })) := by
        simp [churnStep, hb]
      rw [hstep, ih]
      rw [updateKey_map_fst, getOrInit_map_fst]
      by_cases hm : line ∈ List.map Prod.fst m <;>
        simp [hm, List.contains, List.elem_eq_mem]

theorem rawChurn_map_fst (lines : List String) :
    (rawChurn lines).map Prod.fst = dedupFirst (fileLines lines) := by
  induction lines with
  | nil => rfl
  | cons line t ih =>
    by_cases hb : isBlank line
    · have : rawChurn (line :: t) = rawChurn t := by
        simp [rawChurn, churnStep, hb]
      rw [this, ih]
      simp [fileLines, List.filter_cons, hb]
    · have : rawChurn (line :: t) = ((t.foldl churnStep (some line, [])).2) := by
        simp [rawChurn, churnStep, hb]
      rw [this, churn_keys_aux]
      simp [dedupFirst, fileLines, List.filter_cons, hb]

/-- Claim C10: the frequency-metadata merge of `analyze_code_churn` is a
frame-preserving update.  The key list of the returned mapping is exactly
the first-occurrence deduplication of the lines consumed in file position
in the raw log stream (the merge adds and removes no key), and for every
path the `change_count` and `commits` fields computed by the raw pass
survive the merge unchanged — the merge writes only `last_modified`,
`authors` and `primary_owner`. -/
theorem c10_churn_merge_is_frame_preserving (lines : List String)
    (frequency_data : List FileChangeFrequency) :
    ((analyze_code_churn lines frequency_data).map Prod.fst
        = dedupFirst (fileLines lines))
    ∧ ((analyze_code_churn lines frequency_data).map Prod.fst
        = (rawChurn lines).map Prod.fst)
    ∧ ∀ p : String,
        (((analyze_code_churn lines frequency_data).lookup p).map
            (fun v => (v.change_count, v.commits)))
          = (((rawChurn lines).lookup p).map
              (fun v => (v.change_count, v.commits))) := by
  refine ⟨?_, ?_, ?_⟩
  · rw [analyze_code_churn, foldl_churnMergeStep_map_fst, rawChurn_map_fst]
  · rw [analyze_code_churn, foldl_churnMergeStep_map_fst]
  · intro p
    rw [analyze_code_churn, foldl_churnMergeStep_frame]

/-! ## Change frequency primary owner
(`Repository.analyze_change_frequency`, api.py lines 414-482) -/

/-- The per-path author-touch counts `file_authors[path]` (api.py lines
451-456): a Python dict in first-encounter insertion order, each touch
incrementing by one — the same increment-or-append discipline as
`bumpKey`, so these counts are built with `bumpKey`. -/
def authorCounts (touches : List String) : List (String × Nat) :=
  touches.foldl bumpKey []

/-- The primary-owner selection loop (api.py lines 464-469):
`max_count = 0; primary_owner = None; for author, count: if count >
max_count: update`. -/
def findPrimaryOwner (counts : List (String × Nat)) : Option String :=
  (counts.foldl
    (fun acc p => if acc.1 < p.2 then (p.2, some p.1) else acc)
    (0, (none : Option String))).2

/-- The largest touch count of a counts dict (0 when empty). -/
def maxCount (counts : List (String × Nat)) : Nat :=
  (counts.map Prod.snd).foldr max 0

theorem maxCount_cons (q : String × Nat) (t : List (String × Nat)) :
    maxCount (q :: t) = max q.2 (maxCount t) := by
  simp [maxCount]

theorem le_maxCount (counts : List (String × Nat)) (p : String × Nat)
    (h : p ∈ counts) : p.2 ≤ maxCount counts := by
  induction counts with
  | nil => cases h
  | cons q t ih =>
    rw [maxCount_cons]
    rcases List.mem_cons.1 h with h1 | h1
    · subst h1
      exact Nat.le_max_left _ _
    · exact le_trans (ih h1) (Nat.le_max_right _ _)

/-- The selection loop computes the first entry attaining the maximum,
provided the maximum exceeds the threshold the loop was started with. -/
theorem findPrimaryOwner_fold (counts : List (String × Nat)) (mc : Nat)
    (own : Option String) :
    (counts.foldl
        (fun acc p => if acc.1 < p.2 then (p.2, some p.1) else acc)
        (mc, own)).2
      = if maxCount counts ≤ mc then own
        else (counts.find? (fun p => maxCount counts ≤ p.2)).map Prod.fst := by
  induction counts generalizing mc own with
  | nil => simp [maxCount]
  | cons p t ih =>
    have hmax : maxCount (p :: t) = max p.2 (maxCount t) := maxCount_cons p t
    by_cases hp : mc < p.2
    · simp only [List.foldl_cons, if_pos hp]
      rw [ih]
      by_cases ht : maxCount t ≤ p.2
      · have h1 : maxCount (p :: t) ≤ p.2 := by omega
        have h2 : ¬ maxCount (p :: t) ≤ mc := by omega
        have hdec : decide (maxCount (p :: t) ≤ p.2) = true := by
          simpa using h1
        rw [if_pos ht, if_neg h2, List.find?_cons, hdec]
        rfl
      · have h2 : ¬ maxCount (p :: t) ≤ mc := by omega
        have h3 : maxCount (p :: t) = maxCount t := by omega
        have hdec : decide (maxCount (p :: t) ≤ p.2) = false := by
          simp only [decide_eq_false_iff_not]
          omega
        rw [if_neg ht, if_neg h2, List.find?_cons, hdec, h3]
    · simp only [List.foldl_cons, if_neg hp]
      rw [ih]
      by_cases ht : maxCount t ≤ mc
      · have h1 : maxCount (p :: t) ≤ mc := by omega
        rw [if_pos ht, if_pos h1]
      · have h2 : ¬ maxCount (p :: t) ≤ mc := by omega
        have h3 : maxCount (p :: t) = maxCount t := by omega
        have hdec : decide (maxCount (p :: t) ≤ p.2) = false := by
          simp only [decide_eq_false_iff_not]
          omega
        rw [if_neg ht, if_neg h2, List.find?_cons, hdec, h3]

/-- `find?` splits the list at the first hit, all earlier elements
failing the predicate. -/
theorem find?_split {α : Type} (p : α → Bool) (l : List α) (x : α)
    (h : l.find? p = some x) :
    ∃ pre post, l = pre ++ x :: post ∧ p x = true
      ∧ ∀ q ∈ pre, p q = false := by
  induction l with
  | nil => cases h
  | cons a t ih =>
    rw [List.find?_cons] at h
    cases hpa : p a with
    | true =>
      rw [hpa] at h
      have hax : a = x := Option.some.inj h
      subst hax
      exact ⟨[], t, rfl, hpa, fun q hq => absurd hq (List.not_mem_nil q)⟩
    | false =>
      rw [hpa] at h
      have h' : t.find? p = some x := h
      rcases ih h' with ⟨pre, post, hsplit, hx, hpre⟩
      refine ⟨a :: pre, post, by simp [hsplit], hx, ?_⟩
      intro q hq
      rcases List.mem_cons.1 hq with h1 | h1
      · subst h1
        exact hpa
      · exact hpre q h1

theorem mem_bumpKey_pos (m : List (String × Nat)) (k : String)
    (hm : ∀ p ∈ m, 0 < p.2) : ∀ p ∈ bumpKey m k, 0 < p.2 := by
  intro p hp
  rcases mem_bumpKey m k p hp with h | h
  · exact hm p h
  · omega

theorem authorCounts_pos (touches : List String) :
    ∀ p ∈ authorCounts touches, 0 < p.2 := by
  have haux : ∀ (l : List String) (m : List (String × Nat)),
      (∀ p ∈ m, 0 < p.2) → ∀ p ∈ l.foldl bumpKey m, 0 < p.2 := by
    intro l
    induction l with
    | nil => intro m hm; exact hm
    | cons k t ih =>
      intro m hm
      exact ih (bumpKey m k) (mem_bumpKey_pos m k hm)
  exact haux touches [] (by intro p hp; cases hp)

theorem bumpKey_ne_nil (m : List (String × Nat)) (k : String) :
    bumpKey m k ≠ [] := by
  cases m with
  | nil => simp [bumpKey]
  | cons p t =>
    by_cases h : p.1 = k <;> simp [bumpKey, h]

theorem authorCounts_ne_nil (touches : List String) (h : touches ≠ []) :
    authorCounts touches ≠ [] := by
  have haux : ∀ (l : List String) (m : List (String × Nat)), m ≠ [] →
      l.foldl bumpKey m ≠ [] := by
    intro l
    induction l with
    | nil => intro m hm; exact hm
    | cons k t ih => intro m _; exact ih (bumpKey m k) (bumpKey_ne_nil m k)
  cases touches with
  | nil => exact absurd rfl h
  | cons a t =>
    simpa [authorCounts] using haux t (bumpKey [] a) (bumpKey_ne_nil [] a)

theorem maxCount_attained (counts : List (String × Nat))
    (h : counts ≠ []) : ∃ p ∈ counts, maxCount counts ≤ p.2 := by
  induction counts with
  | nil => exact absurd rfl h
  | cons q t ih =>
    by_cases ht : t = []
    · subst ht
      refine ⟨q, List.mem_cons_self _ _, ?_⟩
      rw [maxCount_cons]
      exact Nat.max_le.2 ⟨Nat.le_refl _, by simp [maxCount]⟩
    · rcases ih ht with ⟨p, hp, hple⟩
      by_cases hcmp : maxCount t ≤ q.2
      · refine ⟨q, List.mem_cons_self _ _, ?_⟩
        rw [maxCount_cons]
        exact Nat.max_le.2 ⟨Nat.le_refl _, hcmp⟩
      · refine ⟨p, List.mem_cons_of_mem _ hp, ?_⟩
        rw [maxCount_cons]
        have hq2 : q.2 ≤ maxCount t := Nat.le_of_not_le hcmp
        rw [Nat.max_eq_right hq2]
        exact hple

/-- Claim C7: for a path with at least one recorded touch, the
primary-owner loop returns the author whose count is greatest, and every
author encountered earlier in the counts dict (i.e. earlier in original
first-encounter order) has a strictly smaller count — so a strictly
highest author always wins, and on ties the first-encountered of the
tied authors wins; no sorting by author name is involved. -/
theorem c7_primary_owner_first_max (touches : List String)
    (h : touches ≠ []) :
    ∃ pre a mx post, authorCounts touches = pre ++ (a, mx) :: post
      ∧ findPrimaryOwner (authorCounts touches) = some a
      ∧ (∀ q ∈ authorCounts touches, q.2 ≤ mx)
      ∧ (∀ q ∈ pre, q.2 < mx) := by
  set l := authorCounts touches with hl
  have hne : l ≠ [] := authorCounts_ne_nil touches h
  have hpos : ∀ p ∈ l, 0 < p.2 := authorCounts_pos touches
  rcases maxCount_attained l hne with ⟨pm, hpm_mem, hpm⟩
  have hmaxpos : 0 < maxCount l :=
    lt_of_lt_of_le (hpos pm hpm_mem) (le_maxCount l pm hpm_mem)
  have hfound : ∃ x, l.find? (fun p => decide (maxCount l ≤ p.2)) = some x := by
    have : (l.find? (fun p => decide (maxCount l ≤ p.2))).isSome := by
      rw [List.find?_isSome]
      exact ⟨pm, hpm_mem, by simpa using hpm⟩
    exact Option.isSome_iff_exists.1 this
  rcases hfound with ⟨x, hx⟩
  rcases find?_split _ l x hx with ⟨pre, post, hsplit, hxp, hpre⟩
  refine ⟨pre, x.1, x.2, post, by simpa using hsplit, ?_, ?_, ?_⟩
  · rw [findPrimaryOwner, findPrimaryOwner_fold, if_neg (by omega), hx]
    rfl
  · intro q hq
    have hx2 : maxCount l ≤ x.2 := by simpa using hxp
    have := le_maxCount l q hq
    omega
  · intro q hq
    have hqf := hpre q hq
    have hx2 : maxCount l ≤ x.2 := by simpa using hxp
    have : ¬ maxCount l ≤ q.2 := by simpa using hqf
    omega

/-- Witness for C7: touches alice, bob, bob, alice give the tied counts
[(alice, 2), (bob, 2)]; the loop picks alice, the first encountered. -/
theorem c7_primary_owner_first_max_witness :
    (∃ pre a mx post,
        authorCounts ["alice", "bob", "bob", "alice"]
            = pre ++ (a, mx) :: post
          ∧ findPrimaryOwner (authorCounts ["alice", "bob", "bob", "alice"])
              = some a
          ∧ (∀ q ∈ authorCounts ["alice", "bob", "bob", "alice"], q.2 ≤ mx)
          ∧ (∀ q ∈ pre, q.2 < mx))
    ∧ findPrimaryOwner (authorCounts ["alice", "bob", "bob", "alice"])
        = some "alice" :=
  ⟨c7_primary_owner_first_max ["alice", "bob", "bob", "alice"]
    (by decide), by rfl⟩

/-! ## Hotspot ranker (`Analytics.analyze_hotspots`, analytics.py lines
378-466, api.py lines 746-799) -/

/-- The fixed source-extension allow-list (analytics.py line 422). -/
def source_extensions : List String :=
  [".rs", ".py", ".java", ".js", ".ts", ".c", ".cpp", ".h", ".go", ".rb",
   ".php", ".cs"]

/-- The extension computed inside `is_source_file` (analytics.py line
425): `path.lower().split('.')[-1] if '.' in path else ''`. -/
def analyticsExt (path : String) : String :=
  if path.toList.contains '.' then
    String.mk (afterLast '.' (path.toList.map Char.toLower))
  else ""

/-- The nested `is_source_file` of analytics.py lines 424-426: the check
`f".{ext}" in source_extensions and '/node_modules/' not in path and
'/vendor/' not in path`. -/
def is_source_file (path : String) : Bool :=
  source_extensions.contains ("." ++ analyticsExt path)
    && !containsSub path.toList "/node_modules/".toList
    && !containsSub path.toList "/vendor/".toList

/-- One hotspot record.  The Python entry additionally stores the float
`hotspot_factor = churn_factor * complexity ** 0.5 / 1000.0`, which is
determined by the two integer fields kept here: it is positive exactly
when both are, and ordering two factors compares
`churn² · complexity` (since all quantities are nonnegative). -/
structure HotspotEntry where
  file_path : String
  churn_factor : Nat
  complexity : Nat
deriving DecidableEq, Repr

/-- The per-file body of the hotspot loop (analytics.py lines 432-461).
`lineCount` models the external `git show HEAD:path` read: `some n` is a
content of `n` lines, `none` a read failure (the `except: complexity =
0` path).  The guard `0 < churn && 0 < complexity` is exactly
`hotspot_factor > 0` for the real-valued factor. -/
def hotspotFor (frequency_data : List FileChangeFrequency)
    (lineCount : String → Option Nat) (p : String) : Option HotspotEntry :=
  match frequency_data.find? (fun f => f.path == p) with
  | none => none
  | some fe =>
    let churn := fe.change_count
    let complexity := (lineCount p).getD 0
    if 0 < churn && 0 < complexity then
      some ⟨p, churn, complexity⟩
    else none

/-- Python's stable `sort(key=..., reverse=True)` on the real-valued
hotspot factor, realised with the order-equivalent integer key
`churn² · complexity`. -/
def sortHotspots (hs : List HotspotEntry) : List HotspotEntry :=
  hs.mergeSort (fun a b =>
    b.churn_factor * b.churn_factor * b.complexity
      ≤ a.churn_factor * a.churn_factor * a.complexity)

/-- `Analytics.analyze_hotspots` (fallback path, analytics.py lines
414-466): filter the tracked files through `is_source_file`, build an
entry per file found in the frequency data whose factor is positive,
and sort descending by factor. -/
def analyze_hotspots (tracked_files : List String)
    (frequency_data : List FileChangeFrequency)
    (lineCount : String → Option Nat) : List HotspotEntry :=
  sortHotspots
    ((tracked_files.filter is_source_file).filterMap
      (hotspotFor frequency_data lineCount))

/-- Claim C4 counterexample: a vendored-dependency directory at the
repository root is not excluded.  `node_modules/a.js` does not contain
the substring `/node_modules/`, so it passes `is_source_file` and is
returned as a hotspot. -/
theorem c4_counterexample_root_node_modules_not_excluded :
    (analyze_hotspots ["node_modules/a.js"]
        [⟨"node_modules/a.js", 3, 0, [], none⟩]
        (fun _ => some 10)).map (fun e => e.file_path)
      = ["node_modules/a.js"] := by
  have h : (["node_modules/a.js"].filter is_source_file).filterMap
      (hotspotFor [⟨"node_modules/a.js", 3, 0, [], none⟩] (fun _ => some 10))
      = [⟨"node_modules/a.js", 3, 10⟩] := by rfl
  rw [analyze_hotspots, sortHotspots, h, List.mergeSort_singleton]
  rfl

theorem mem_analyze_hotspots_is_source (tracked_files : List String)
    (frequency_data : List FileChangeFrequency)
    (lineCount : String → Option Nat) (e : HotspotEntry)
    (h : e ∈ analyze_hotspots tracked_files frequency_data lineCount) :
    is_source_file e.file_path = true := by
  rw [analyze_hotspots, sortHotspots, List.mem_mergeSort] at h
  rcases List.mem_filterMap.1 h with ⟨p, hp, hfe⟩
  have hpe : e.file_path = p := by
    unfold hotspotFor at hfe
    rcases hfind : frequency_data.find? (fun f => f.path == p) with _ | fe
    · rw [hfind] at hfe
      cases hfe
    · rw [hfind] at hfe
      by_cases hpos : 0 < fe.change_count
          && 0 < (lineCount p).getD 0
      · simp only [hpos, if_pos] at hfe
        cases hfe
        rfl
      · simp only [hpos] at hfe
        simp at hfe
  rw [hpe]
  exact List.of_mem_filter hp

/-- Claim C4 amended: a vendored-dependency segment is excluded exactly
when it is nested below the top level — when the path contains
`/node_modules/` or `/vendor/` as a substring.  No hotspot entry is ever
returned for such a path, regardless of extension; a `node_modules` or
`vendor` directory at the repository root is *not* excluded. -/
theorem c4_amended_nested_vendored_paths_excluded
    (tracked_files : List String)
    (frequency_data : List FileChangeFrequency)
    (lineCount : String → Option Nat) (p : String)
    (hvend : containsSub p.toList "/node_modules/".toList = true
      ∨ containsSub p.toList "/vendor/".toList = true) :
    p ∉ (analyze_hotspots tracked_files frequency_data lineCount).map
      (fun e => e.file_path) := by
  intro hmem
  rcases List.mem_map.1 hmem with ⟨e, he, hep⟩
  have hsrc := mem_analyze_hotspots_is_source _ _ _ e he
  rw [hep] at hsrc
  unfold is_source_file at hsrc
  rw [Bool.and_eq_true, Bool.and_eq_true] at hsrc
  rcases hsrc with ⟨⟨_, hB⟩, hC⟩
  rcases hvend with hv | hv
  · rw [hv] at hB
    exact absurd hB (by decide)
  · rw [hv] at hC
    exact absurd hC (by decide)

/-- Witness for the amended C4: a nested vendor path with a source
extension and positive churn/complexity is still excluded. -/
theorem c4_amended_nested_vendored_paths_excluded_witness :
    "src/vendor/a.py" ∉
      (analyze_hotspots ["src/vendor/a.py"]
          [⟨"src/vendor/a.py", 3, 0, [], none⟩]
          (fun _ => some 10)).map (fun e => e.file_path) :=
  c4_amended_nested_vendored_paths_excluded _ _ _ _ (.inr (by rfl))

/-! ## Knowledge map builder (`Analytics.analyze_knowledge_map`,
analytics.py lines 468-563, api.py lines 801-855).

The two Python fallbacks are line-for-line identical except for how the
language key is derived from a file path, so they are embedded as one
builder parameterised over the key function, applied to the two key
functions below. -/

/-- analytics.py line 516:
`extension = path.lower().split('.')[-1] if '.' in path else 'unknown'`. -/
def analytics_language_key (path : String) : String :=
  if path.toList.contains '.' then
    String.mk (afterLast '.' (path.toList.map Char.toLower))
  else "unknown"

/-- The final path component (suffix after the last '/'), the part of the
path that `os.path.splitext` examines. -/
def basenameL (cs : List Char) : List Char :=
  afterLast '/' cs

/-- Whether `os.path.splitext` finds a nonempty extension: the basename
must contain a dot preceded (within the basename) by a non-dot
character, so dotfiles like `.bashrc` and basenames of only leading dots
have no extension. -/
def splitextHasExt (cs : List Char) : Bool :=
  (basenameL cs).contains '.'
    && ((basenameL cs).take
          ((basenameL cs).length - (afterLast '.' (basenameL cs)).length - 1)).any
        (fun x => x ≠ '.')

/-- api.py lines 815-819: `extension = os.path.splitext(path)[1].lower()`
then `'unknown'` when empty, else the extension without its leading dot. -/
def api_language_key (path : String) : String :=
  if splitextHasExt path.toList then
    String.mk ((afterLast '.' (basenameL path.toList)).map Char.toLower)
  else "unknown"

/-- The `analyze_code_ownership` result consumed by the builder:
per-file and per-directory author line counts. -/
structure Ownership where
  files : List (String × List (String × Nat))
  directories : List (String × List (String × Nat))
deriving DecidableEq, Repr

/-- The mutable per-author dict built by the file pass (analytics.py
lines 520-526) before contributions are computed. -/
structure ExpertiseAcc where
  files : List (String × Nat) := []
  directories : List (String × Nat) := []
  languages : List (String × Nat) := []
  total_lines : Nat := 0
deriving DecidableEq, Repr

/-- The `AuthorExpertise` dataclass (analytics.py lines 63-70), with the
contribution percentage kept in exact arithmetic. -/
structure AuthorExpertise where
  files : List (String × Nat)
  directories : List (String × Nat)
  languages : List (String × Nat)
  total_lines : Nat
  repository_contribution : ℚ
deriving DecidableEq, Repr

/-- Python dict assignment `m[k] = v` on an insertion-ordered dict. -/
def setKeyNat : List (String × Nat) → String → Nat → List (String × Nat)
  | [], k, v => [(k, v)]
  | p :: t, k, v => if p.1 = k then (k, v) :: t else p :: setKeyNat t k v

/-- `if k not in m: m[k] = 0; m[k] += n` on an insertion-ordered dict. -/
def addKeyNat : List (String × Nat) → String → Nat → List (String × Nat)
  | [], k, n => [(k, n)]
  | p :: t, k, n => if p.1 = k then (p.1, p.2 + n) :: t else p :: addKeyNat t k n

/-- `if author not in expertise_map: expertise_map[author] = empty` then
mutate the author's record (analytics.py lines 519-528). -/
def updateAuthorKey : List (String × ExpertiseAcc) → String →
    (ExpertiseAcc → ExpertiseAcc) → List (String × ExpertiseAcc)
  | [], a, f => [(a, f ⟨[], [], [], 0⟩)]
  | p :: t, a, f => if p.1 = a then (p.1, f p.2) :: t
      else p :: updateAuthorKey t a f

/-- `if author in expertise_map:` then mutate; authors not present are
not introduced (analytics.py lines 538-542). -/
def updateIfMemberKey : List (String × ExpertiseAcc) → String →
    (ExpertiseAcc → ExpertiseAcc) → List (String × ExpertiseAcc)
  | [], _, _ => []
  | p :: t, a, f => if p.1 = a then (p.1, f p.2) :: t
      else p :: updateIfMemberKey t a f

/-- The file-ownership pass (analytics.py lines 514-535): for each
(path, author, line_count), assign the per-file count, add to
total_lines, and add to the per-language count keyed by `langKey path`. -/
def filePass (langKey : String → String)
    (files : List (String × List (String × Nat))) :
    List (String × ExpertiseAcc) :=
  files.foldl (fun m pf =>
    pf.2.foldl (fun m al =>
      updateAuthorKey m al.1 (fun e =>
        { e with files := setKeyNat e.files pf.1 al.2,
                 total_lines := e.total_lines + al.2,
                 languages := addKeyNat e.languages (langKey pf.1) al.2 }))
      m) []

/-- The directory-ownership pass (analytics.py lines 537-542). -/
def dirPass (m : List (String × ExpertiseAcc))
    (dirs : List (String × List (String × Nat))) :
    List (String × ExpertiseAcc) :=
  dirs.foldl (fun m pd =>
    pd.2.foldl (fun m al =>
      updateIfMemberKey m al.1 (fun e =>
        { e with directories := setKeyNat e.directories pd.1 al.2 })) m) m

/-- Both ownership passes. -/
def knowledgeAcc (langKey : String → String) (o : Ownership) :
    List (String × ExpertiseAcc) :=
  dirPass (filePass langKey o.files) o.directories

/-- The contribution computation (analytics.py lines 544-551):
`(total_lines / total) * 100` when the repository total is positive,
else 0. -/
def finishExpertise (total : Nat) (e : ExpertiseAcc) : AuthorExpertise :=
  { files := e.files, directories := e.directories,
    languages := e.languages, total_lines := e.total_lines,
    repository_contribution :=
      if 0 < total then ((e.total_lines : ℚ) / (total : ℚ)) * 100 else 0 }

/-- `Analytics.analyze_knowledge_map` (fallback path, analytics.py lines
507-563), parameterised over the language-key derivation, the single
point where the analytics.py and api.py copies differ. -/
def analyze_knowledge_map (langKey : String → String) (o : Ownership) :
    List (String × AuthorExpertise) :=
  let m := knowledgeAcc langKey o
  let total := (m.map (fun p => p.2.total_lines)).sum
  m.map (fun p => (p.1, finishExpertise total p.2))

theorem sum_map_mul_const {α : Type} (l : List α) (f : α → ℚ) (c : ℚ) :
    (l.map (fun x => f x * c)).sum = (l.map f).sum * c := by
  induction l with
  | nil => simp
  | cons x t ih => simp [ih, add_mul]

theorem sum_map_natCast {α : Type} (l : List α) (f : α → Nat) :
    (l.map (fun x => ((f x : ℚ)))).sum = (((l.map f).sum : Nat) : ℚ) := by
  induction l with
  | nil => simp
  | cons x t ih => simp [ih]

/-- Claim C8: in exact arithmetic, each author's repository contribution
is `100 · total_lines / T` where `T` is the sum of `total_lines` across
all authors of the returned map; the contributions sum to 100 whenever
`T` is positive; and every contribution is 0 when `T = 0`. -/
theorem c8_repository_contribution_exact (langKey : String → String)
    (o : Ownership) :
    (∀ e ∈ analyze_knowledge_map langKey o,
        e.2.repository_contribution
          = 100 * (e.2.total_lines : ℚ)
            / ((((analyze_knowledge_map langKey o).map
                (fun p => p.2.total_lines)).sum : Nat) : ℚ))
    ∧ (0 < ((analyze_knowledge_map langKey o).map
          (fun p => p.2.total_lines)).sum →
        ((analyze_knowledge_map langKey o).map
          (fun p => p.2.repository_contribution)).sum = 100)
    ∧ (((analyze_knowledge_map langKey o).map
          (fun p => p.2.total_lines)).sum = 0 →
        ∀ e ∈ analyze_knowledge_map langKey o,
          e.2.repository_contribution = 0) := by
  have hres : analyze_knowledge_map langKey o
      = (knowledgeAcc langKey o).map (fun p => (p.1, finishExpertise
          (((knowledgeAcc langKey o).map (fun p => p.2.total_lines)).sum)
          p.2)) := rfl
  have htot : ((analyze_knowledge_map langKey o).map
        (fun p => p.2.total_lines)).sum
      = ((knowledgeAcc langKey o).map (fun p => p.2.total_lines)).sum := by
    rw [hres, List.map_map]
    rfl
  set m := knowledgeAcc langKey o with hm
  set T := (m.map (fun p => p.2.total_lines)).sum with hT
  refine ⟨?_, ?_, ?_⟩
  · intro e he
    rw [htot]
    rw [hres] at he
    rcases List.mem_map.1 he with ⟨p, _, hpe⟩
    subst hpe
    simp only [finishExpertise]
    by_cases h0 : 0 < T
    · rw [if_pos h0]
      ring
    · rw [if_neg h0]
      have : T = 0 := by omega
      rw [this]
      simp
  · intro hpos
    rw [htot] at hpos
    have hmap : (analyze_knowledge_map langKey o).map
        (fun p => p.2.repository_contribution)
        = m.map (fun p => (p.2.total_lines : ℚ) * (100 / (T : ℚ))) := by
      rw [hres, List.map_map]
      refine List.map_congr_left ?_
      intro p _
      simp only [Function.comp, finishExpertise, if_pos hpos]
      ring
    rw [hmap, sum_map_mul_const, sum_map_natCast]
    have hTne : ((T : Nat) : ℚ) ≠ 0 := by
      exact_mod_cast Nat.pos_iff_ne_zero.1 hpos
    rw [← hT]
    field_simp
  · intro hzero e he
    rw [htot] at hzero
    rw [hres] at he
    rcases List.mem_map.1 he with ⟨p, _, hpe⟩
    subst hpe
    simp only [finishExpertise]
    rw [if_neg (by omega)]

/-- Witness for C8: one file owned by alice (3 lines) and bob (1 line):
the attributed total is 4 (positive) and the shares sum to 100. -/
theorem c8_repository_contribution_exact_witness :
    ((analyze_knowledge_map analytics_language_key
        ⟨[("a.py", [("alice", 3), ("bob", 1)])], []⟩).map
      (fun p => p.2.total_lines)).sum = 4
    ∧ ((analyze_knowledge_map analytics_language_key
        ⟨[("a.py", [("alice", 3), ("bob", 1)])], []⟩).map
      (fun p => p.2.repository_contribution)).sum = 100 :=
  ⟨by decide, (c8_repository_contribution_exact analytics_language_key
    ⟨[("a.py", [("alice", 3), ("bob", 1)])], []⟩).2.1 (by decide)⟩

/-! ## Comparing the two language-key derivations (claim C9) -/

/-- Claim C9 counterexample: on the dotfile `.bashrc` the two fallbacks
disagree.  analytics.py keys by the substring after the last dot
("bashrc"); api.py's `os.path.splitext` treats a leading dot as part of
the name, finds no extension, and keys by "unknown" — so the per-language
expertise maps differ. -/
theorem c9_counterexample_dotfile_languages_differ :
    analytics_language_key ".bashrc" = "bashrc"
    ∧ api_language_key ".bashrc" = "unknown"
    ∧ ((analyze_knowledge_map analytics_language_key
          ⟨[(".bashrc", [("alice", 3)])], []⟩).map
        (fun p => (p.1, p.2.languages)))
        = [("alice", [("bashrc", 3)])]
    ∧ ((analyze_knowledge_map api_language_key
          ⟨[(".bashrc", [("alice", 3)])], []⟩).map
        (fun p => (p.1, p.2.languages)))
        = [("alice", [("unknown", 3)])] := by
  refine ⟨by decide, by decide, by decide, by decide⟩

theorem toLower_eq_dot (c : Char) : Char.toLower c = '.' ↔ c = '.' := by
  constructor
  · intro h
    by_cases hup : c.toNat ≥ 65 ∧ c.toNat ≤ 90
    · exfalso
      have hv : (c.toNat + 32).isValidChar := Or.inl (by omega)
      have htn : (Char.ofNat (c.toNat + 32)).toNat = c.toNat + 32 := by
        rw [Char.ofNat, dif_pos hv]
        rfl
      simp only [Char.toLower] at h
      rw [if_pos hup] at h
      rw [h] at htn
      have h46 : ('.' : Char).toNat = 46 := rfl
      rw [h46] at htn
      omega
    · simp only [Char.toLower] at h
      rw [if_neg hup] at h
      exact h
  · intro h
    subst h
    rfl

theorem takeWhile_append_left {α : Type} (p : α → Bool) (l₁ l₂ : List α)
    (h : ∃ x ∈ l₁, p x = false) :
    (l₁ ++ l₂).takeWhile p = l₁.takeWhile p := by
  induction l₁ with
  | nil =>
    rcases h with ⟨x, hx, _⟩
    cases hx
  | cons a t ih =>
    by_cases hpa : p a = true
    · rcases h with ⟨x, hx, hpx⟩
      rcases List.mem_cons.1 hx with h1 | h1
      · subst h1
        rw [hpa] at hpx
        cases hpx
      · simp [List.takeWhile_cons, hpa, ih ⟨x, h1, hpx⟩]
    · have hpa' : p a = false := by simpa using hpa
      simp [List.takeWhile_cons, hpa']

theorem mem_of_mem_basename (cs : List Char) (x : Char)
    (h : x ∈ basenameL cs) : x ∈ cs := by
  unfold basenameL afterLast at h
  rw [List.mem_reverse] at h
  have := List.takeWhile_subset _ h
  rwa [List.mem_reverse] at this

theorem afterLast_eq_basename (cs : List Char)
    (h : '.' ∈ basenameL cs) :
    afterLast '.' cs = afterLast '.' (basenameL cs) := by
  have hb : (basenameL cs).reverse
      = cs.reverse.takeWhile (fun x => decide (x ≠ '/')) := by
    simp [basenameL, afterLast]
  have hsplit : cs.reverse = (basenameL cs).reverse
      ++ cs.reverse.dropWhile (fun x => decide (x ≠ '/')) := by
    rw [hb, List.takeWhile_append_dropWhile]
  have hwit : ∃ x ∈ (basenameL cs).reverse,
      (fun x => decide (x ≠ '.')) x = false :=
    ⟨'.', List.mem_reverse.2 h, by simp⟩
  show (cs.reverse.takeWhile (fun x => decide (x ≠ '.'))).reverse
      = ((basenameL cs).reverse.takeWhile (fun x => decide (x ≠ '.'))).reverse
  rw [hsplit, takeWhile_append_left _ _ _ hwit]

theorem afterLast_map_toLower (cs : List Char) :
    afterLast '.' (cs.map Char.toLower)
      = (afterLast '.' cs).map Char.toLower := by
  unfold afterLast
  have h1 : (cs.map Char.toLower).reverse = cs.reverse.map Char.toLower :=
    (List.map_reverse Char.toLower cs).symm
  rw [h1, List.takeWhile_map]
  have hpred : ((fun x => decide (x ≠ '.')) ∘ Char.toLower)
      = (fun x => decide (x ≠ '.')) := by
    funext x
    simp only [Function.comp]
    by_cases h : x = '.'
    · subst h
      rfl
    · have hne : Char.toLower x ≠ '.' := fun hh => h ((toLower_eq_dot x).1 hh)
      simp [h, hne]
  rw [hpred, List.map_reverse]

/-- The two language-key derivations agree on every path whose basename
has a genuine extension (a dot preceded by a non-dot character within
the final component) and on every path containing no dot at all. -/
theorem language_keys_agree (path : String)
    (h : splitextHasExt path.toList = true
      ∨ path.toList.contains '.' = false) :
    analytics_language_key path = api_language_key path := by
  rcases h with h | h
  · have hsplit := h
    unfold splitextHasExt at hsplit
    rw [Bool.and_eq_true] at hsplit
    have hdot_b : '.' ∈ basenameL path.toList :=
      List.elem_iff.1 hsplit.1
    have hdot_cs : path.toList.contains '.' = true :=
      List.elem_iff.2 (mem_of_mem_basename _ _ hdot_b)
    unfold analytics_language_key api_language_key
    rw [if_pos hdot_cs, if_pos h, afterLast_map_toLower,
      afterLast_eq_basename _ hdot_b]
  · have hdot_b : (basenameL path.toList).contains '.' = false := by
      by_contra hc
      have : '.' ∈ basenameL path.toList :=
        List.elem_iff.1 (Bool.of_not_eq_false hc)
      have : path.toList.contains '.' = true :=
        List.elem_iff.2 (mem_of_mem_basename _ _ this)
      rw [this] at h
      cases h
    have hsplit : splitextHasExt path.toList = false := by
      unfold splitextHasExt
      rw [hdot_b]
      rfl
    unfold analytics_language_key api_language_key
    rw [if_neg (by rw [h]; simp), if_neg (by rw [hsplit]; simp)]

theorem filePass_congr_aux (k1 k2 : String → String)
    (files : List (String × List (String × Nat)))
    (h : ∀ pf ∈ files, k1 pf.1 = k2 pf.1) :
    ∀ m, files.foldl (fun m pf =>
        pf.2.foldl (fun m al =>
          updateAuthorKey m al.1 (fun e =>
            { e with files := setKeyNat e.files pf.1 al.2,
                     total_lines := e.total_lines + al.2,
                     languages := addKeyNat e.languages (k1 pf.1) al.2 }))
          m) m
      = files.foldl (fun m pf =>
        pf.2.foldl (fun m al =>
          updateAuthorKey m al.1 (fun e =>
            { e with files := setKeyNat e.files pf.1 al.2,
                     total_lines := e.total_lines + al.2,
                     languages := addKeyNat e.languages (k2 pf.1) al.2 }))
          m) m := by
  induction files with
  | nil => intro m; rfl
  | cons pf t ih =>
    intro m
    simp only [List.foldl_cons]
    rw [h pf (List.mem_cons_self _ _)]
    exact ih (fun q hq => h q (List.mem_cons_of_mem _ hq)) _

theorem filePass_congr (k1 k2 : String → String)
    (files : List (String × List (String × Nat)))
    (h : ∀ pf ∈ files, k1 pf.1 = k2 pf.1) :
    filePass k1 files = filePass k2 files := by
  unfold filePass
  exact filePass_congr_aux k1 k2 files h []

/-- Claim C9 amended: the two fallback knowledge-map builders compute
identical results on every ownership input in which each file path
either has a genuine extension in its final component (a dot preceded by
a non-dot character there) or contains no dot at all.  They diverge on
dotfiles and on paths whose dots all lie in directory components:
analytics.py keys such files by the substring after the last dot of the
whole path, while api.py keys them under "unknown". -/
theorem c9_amended_builders_agree_on_real_extensions (o : Ownership)
    (h : ∀ pf ∈ o.files, splitextHasExt pf.1.toList = true
      ∨ pf.1.toList.contains '.' = false) :
    analyze_knowledge_map analytics_language_key o
      = analyze_knowledge_map api_language_key o := by
  have hfp : filePass analytics_language_key o.files
      = filePass api_language_key o.files :=
    filePass_congr _ _ o.files
      (fun pf hpf => language_keys_agree pf.1 (h pf hpf))
  unfold analyze_knowledge_map knowledgeAcc
  rw [hfp]

/-- Witness for the amended C9: a normal ownership input (a Python file
plus directory data) on which the two builders agree. -/
theorem c9_amended_builders_agree_on_real_extensions_witness :
    analyze_knowledge_map analytics_language_key
        ⟨[("src/a.py", [("alice", 2), ("bob", 5)])], [("src", [("alice", 2)])]⟩
      = analyze_knowledge_map api_language_key
        ⟨[("src/a.py", [("alice", 2), ("bob", 5)])], [("src", [("alice", 2)])]⟩ :=
  c9_amended_builders_agree_on_real_extensions _ (by decide)

end GitLens
